import Mathlib

/-!
Verification development for the TSH OCR parser (`src/parsers/tsh.py`)
and the surrounding service (`src/app.py`, `src/ocr_engine.py`).

The Python code is shallowly embedded: strings are `String`/`List Char`,
Python floats on the decimal values handled here are modelled as `ℚ`
(all arithmetic performed by the code on these inputs is division by
powers of ten, exact in the model), `None` becomes `Option.none`.
The regular expressions of the source are embedded as executable
matchers over `List Char`; each matcher follows the concrete pattern
text of the source (alternatives tried in source order, greedy
quantifiers; character classes are modelled at the ASCII/Latin-1 level
used by the data).
-/

-- ==================================================================
-- Character helpers
-- ==================================================================

/-- The character class `[ \t\f\v]` of `_normalize_text`'s first `re.sub`. -/
def pyWS (c : Char) : Bool :=
  c = ' ' || c = '\t' || c = '\x0c' || c = '\x0b'

/-- Python's regex class `\s` (ASCII part): space, tab, newline,
carriage return, vertical tab, form feed. -/
def reWS (c : Char) : Bool :=
  c = ' ' || c = '\t' || c = '\n' || c = '\r' || c = '\x0b' || c = '\x0c'

/-- Python's regex class `\w` (ASCII part), used for `\b` boundaries. -/
def isWordChar (c : Char) : Bool :=
  c.isAlpha || c.isDigit || c = '_'

/-- `text.replace("\r", "\n")` on one character. -/
def replCR (c : Char) : Char := if c = '\r' then '\n' else c

-- ==================================================================
-- `_normalize_text` (src/parsers/tsh.py lines 37-44)
-- ==================================================================

theorem lengthDropWhileLe {α : Type} (p : α → Bool) (l : List α) :
    (l.dropWhile p).length ≤ l.length := by
  induction l with
  | nil => simp
  | cons c r ih =>
    by_cases h : p c <;> simp [List.dropWhile_cons, h] <;> omega

/-- `re.sub(r"[ \t\f\v]+", " ", text)`: every maximal run of blank
characters becomes a single space.  The `fuel` argument only makes the
recursion structural (each step consumes at least one character, so any
`fuel ≥ length` computes the full result). -/
def collapseWSF : Nat → List Char → List Char
  | 0, _ => []
  | _, [] => []
  | fuel + 1, c :: r =>
    if pyWS c then ' ' :: collapseWSF fuel (r.dropWhile pyWS)
    else c :: collapseWSF fuel r

def collapseWS (l : List Char) : List Char := collapseWSF l.length l

/-- `re.sub(r"\n+", "\n", text)`: every maximal run of newlines becomes
a single newline (fuel as in `collapseWSF`). -/
def collapseNLF : Nat → List Char → List Char
  | 0, _ => []
  | _, [] => []
  | fuel + 1, c :: r =>
    if c = '\n' then '\n' :: collapseNLF fuel (r.dropWhile (· = '\n'))
    else c :: collapseNLF fuel r

def collapseNL (l : List Char) : List Char := collapseNLF l.length l

/-- `_normalize_text`: `\r`→`\n`, collapse blank runs to one space,
collapse newline runs to one newline; empty input returns `""`
(the `if not text` guard of the source). -/
def normalizeText (text : String) : String :=
  if text = "" then ""
  else (collapseNL (collapseWS (text.toList.map replCR))).asString

-- ==================================================================
-- Digit strings and `_to_float` (src/parsers/tsh.py lines 47-56)
-- ==================================================================

/-- Value of a digit string, most significant digit first
(Python `int(digits)` on an all-digit string). -/
def digitsToNat (l : List Char) : Nat :=
  l.foldl (fun a c => 10 * a + (c.toNat - '0'.toNat)) 0

/-- Parse `sign? digits ('.' digits)?` as an exact rational.
This is the shape every string reaching `float(...)` in the source has
(they are matches of `NUM_RE` with `","` already replaced by `"."`);
anything else returns `none` like `float`'s `ValueError` branch. -/
def decSign (l : List Char) : Bool × List Char :=
  match l with
  | c :: r => if c = '-' then (true, r) else if c = '+' then (false, r) else (false, l)
  | [] => (false, l)

def parseDecimal (l : List Char) : Option ℚ :=
  let ip := (decSign l).2.takeWhile Char.isDigit
  if ip.isEmpty then none
  else
    match (decSign l).2.dropWhile Char.isDigit with
    | [] => some (mkRat ((if (decSign l).1 then -1 else 1) * (digitsToNat ip : ℤ)) 1)
    | s :: r2 =>
      if s = '.' then
        let fp := r2.takeWhile Char.isDigit
        if fp.isEmpty then none
        else if (r2.dropWhile Char.isDigit).isEmpty then
          some (mkRat ((if (decSign l).1 then -1 else 1) *
            ((digitsToNat ip : ℤ) * (10 : ℤ) ^ fp.length + (digitsToNat fp : ℤ)))
            ((10 : ℕ) ^ fp.length))
        else none
      else none

/-- `_to_float`: strip spaces and non-breaking spaces, turn `","` into
`"."`, then parse (`float(s)` with `ValueError` giving `None`). -/
def toFloat (l : List Char) : Option ℚ :=
  if l.isEmpty then none
  else
    let l1 := l.filter (fun c => !(c = ' ' || c = '\u00A0'))
    let l2 := l1.map (fun c => if c = ',' then '.' else c)
    parseDecimal l2

/-- `"," in raw` / `"." in raw`: character membership. -/
def containsChar (l : List Char) (c : Char) : Bool :=
  l.any (fun d => d = c)

-- ==================================================================
-- `_adjust_ref_value` (src/parsers/tsh.py lines 59-93)
-- ==================================================================

/-- `_adjust_ref_value` on the character list of the raw bound token:
with a decimal separator, parse as-is; otherwise keep only the digits
and rescale: 4+ digits divide by 1000, 3 digits divide by 100,
1-2 digits unchanged. -/
def adjustRefCore (l : List Char) : Option ℚ :=
  if l.isEmpty then none
  else if containsChar l ',' || containsChar l '.' then toFloat l
  else
    let ds := l.filter Char.isDigit
    if ds.isEmpty then none
    else
      let n := ds.length
      if 4 ≤ n then some (mkRat (digitsToNat ds : ℤ) 1000)
      else if n = 3 then some (mkRat (digitsToNat ds : ℤ) 100)
      else some (mkRat (digitsToNat ds : ℤ) 1)

/-- String-level wrapper of `_adjust_ref_value`. -/
def adjustRefValue (raw : String) : Option ℚ :=
  adjustRefCore raw.toList

-- ==================================================================
-- `NUM_RE = [+-]?\d+(?:[.,]\d+)?` and `RANGE_RE`
-- ==================================================================

/-- One match of `NUM_RE`: its optional sign, its integer digits and its
optional fractional part (separator character followed by digits).
`text` rebuilds `group(0)` of the match. -/
structure NumTok where
  sgn : List Char
  ip : List Char
  fp : List Char
deriving Repr, DecidableEq

def NumTok.text (t : NumTok) : List Char := t.sgn ++ t.ip ++ t.fp

def NumTok.len (t : NumTok) : Nat := t.text.length

/-- The `[+-]?` head of `NUM_RE`: a sign is consumed only when a digit
follows (otherwise the regex backtracks to the empty sign, after which
`\d+` fails on the sign character anyway). -/
def numSign (l : List Char) : List Char × List Char :=
  match l with
  | c :: d :: r => if (c = '+' || c = '-') && d.isDigit then ([c], d :: r) else ([], l)
  | _ => ([], l)

/-- The `(?:[.,]\d+)?` tail of `NUM_RE`: an optional separator-plus-digits
group, taken (greedily) only when at least one digit follows the
separator. -/
def numFrac (sgn ip rest : List Char) : NumTok × List Char :=
  match rest with
  | s :: r2 =>
    if s = '.' || s = ',' then
      if (r2.takeWhile Char.isDigit).isEmpty then (⟨sgn, ip, []⟩, s :: r2)
      else (⟨sgn, ip, s :: r2.takeWhile Char.isDigit⟩, r2.dropWhile Char.isDigit)
    else (⟨sgn, ip, []⟩, s :: r2)
  | [] => (⟨sgn, ip, []⟩, [])

/-- The `\d+(?:[.,]\d+)?` tail of `NUM_RE` on the input after the sign:
maximal digit run, then the optional fractional group. -/
def numBody (sgn l1 : List Char) : Option (NumTok × List Char) :=
  match l1 with
  | [] => none
  | d :: _ =>
    if d.isDigit then
      some (numFrac sgn (l1.takeWhile Char.isDigit) (l1.dropWhile Char.isDigit))
    else none

/-- Match `NUM_RE = [+-]?\d+(?:[.,]\d+)?` anchored at the head of `l`;
return the matched token and the unconsumed rest. -/
def numMatchAt (l : List Char) : Option (NumTok × List Char) :=
  numBody (numSign l).1 (numSign l).2

/-- Well-formedness of every `NUM_RE` match. -/
def NumWf (t : NumTok) : Prop :=
  (t.sgn = [] ∨ t.sgn = ['+'] ∨ t.sgn = ['-']) ∧
  t.ip ≠ [] ∧ (∀ c ∈ t.ip, c.isDigit = true) ∧
  (t.fp = [] ∨ ∃ s fs, t.fp = s :: fs ∧ (s = '.' ∨ s = ',') ∧ fs ≠ [] ∧
    ∀ c ∈ fs, c.isDigit = true)

theorem takeWhile_all {α : Type} (p : α → Bool) (l : List α) :
    ∀ c ∈ l.takeWhile p, p c = true := by
  induction l with
  | nil => simp
  | cons a r ih =>
    by_cases h : p a
    · simp only [List.takeWhile_cons, if_pos h, List.mem_cons]
      rintro c (rfl | hc)
      · exact h
      · exact ih c hc
    · simp [List.takeWhile_cons, if_neg h]

theorem numSign_spec (l : List Char) :
    (numSign l).1 ++ (numSign l).2 = l ∧
    ((numSign l).1 = [] ∨ (numSign l).1 = ['+'] ∨ (numSign l).1 = ['-']) := by
  match l with
  | [] => simp [numSign]
  | [c] => simp [numSign]
  | c :: d :: r =>
    simp only [numSign]
    split
    · next hc =>
      refine ⟨rfl, ?_⟩
      rcases Bool.and_eq_true .. |>.mp hc with ⟨h1, _⟩
      rcases Bool.or_eq_true .. |>.mp h1 with h2 | h2 <;>
        simp only [decide_eq_true_eq] at h2 <;> simp [h2]
    · simp

theorem numFrac_spec (sgn ip rest : List Char) :
    (numFrac sgn ip rest).1.sgn = sgn ∧ (numFrac sgn ip rest).1.ip = ip ∧
    ((numFrac sgn ip rest).1.fp = [] ∨
      ∃ s fs, (numFrac sgn ip rest).1.fp = s :: fs ∧ (s = '.' ∨ s = ',') ∧ fs ≠ [] ∧
        ∀ c ∈ fs, c.isDigit = true) ∧
    (numFrac sgn ip rest).1.fp ++ (numFrac sgn ip rest).2 = rest := by
  match rest with
  | [] => simp [numFrac]
  | s :: r2 =>
    simp only [numFrac]
    split
    · next hs =>
      split
      · next hfs => simp
      · next hfs =>
        refine ⟨rfl, rfl, ?_, ?_⟩
        · refine Or.inr ⟨s, r2.takeWhile Char.isDigit, rfl, ?_, ?_, takeWhile_all _ _⟩
          · rcases Bool.or_eq_true .. |>.mp hs with h2 | h2 <;>
              simp only [decide_eq_true_eq] at h2 <;> simp [h2]
          · intro hcon; rw [hcon] at hfs; simp at hfs
        · simp [List.takeWhile_append_dropWhile Char.isDigit r2]
    · simp

theorem numBody_spec (sgn l1 : List Char) (t : NumTok) (r : List Char)
    (h : numBody sgn l1 = some (t, r)) :
    t.sgn = sgn ∧ t.ip ≠ [] ∧ (∀ c ∈ t.ip, c.isDigit = true) ∧
    (t.fp = [] ∨ ∃ s fs, t.fp = s :: fs ∧ (s = '.' ∨ s = ',') ∧ fs ≠ [] ∧
      ∀ c ∈ fs, c.isDigit = true) ∧
    t.ip ++ t.fp ++ r = l1 := by
  match l1 with
  | [] => exact absurd h (by simp [numBody])
  | d :: l2 =>
    rw [numBody] at h
    by_cases hd : d.isDigit
    · rw [if_pos hd] at h
      simp only [Option.some_inj] at h
      have hfr := numFrac_spec sgn ((d :: l2).takeWhile Char.isDigit)
        ((d :: l2).dropWhile Char.isDigit)
      rw [h] at hfr
      have hipne : ((d :: l2).takeWhile Char.isDigit) ≠ [] := by
        rw [List.takeWhile_cons, if_pos hd]; simp
      refine ⟨hfr.1, hfr.2.1 ▸ hipne, ?_, hfr.2.2.1, ?_⟩
      · rw [hfr.2.1]; exact takeWhile_all _ _
      · rw [hfr.2.1, List.append_assoc, hfr.2.2.2]
        exact List.takeWhile_append_dropWhile Char.isDigit (d :: l2)
    · rw [if_neg hd] at h
      exact absurd h (by simp)

theorem numMatchAt_spec (l : List Char) (t : NumTok) (r : List Char)
    (h : numMatchAt l = some (t, r)) : NumWf t ∧ t.text ++ r = l := by
  have hb := numBody_spec (numSign l).1 (numSign l).2 t r h
  have hs := numSign_spec l
  refine ⟨⟨hb.1 ▸ hs.2, hb.2.1, hb.2.2.1, hb.2.2.2.1⟩, ?_⟩
  have heq : t.text ++ r = (numSign l).1 ++ (numSign l).2 := by
    rw [NumTok.text, hb.1, ← hb.2.2.2.2]
    simp [List.append_assoc]
  rw [heq, hs.1]

theorem numMatchAt_len (l : List Char) (t : NumTok) (r : List Char)
    (h : numMatchAt l = some (t, r)) : 1 ≤ t.len ∧ t.len + r.length = l.length := by
  have hs := numMatchAt_spec l t r h
  constructor
  · have hne : t.ip ≠ [] := hs.1.2.1
    have hlen : 1 ≤ t.ip.length := by
      cases hip : t.ip with
      | nil => exact absurd hip hne
      | cons a b => simp
    simp only [NumTok.len, NumTok.text, List.length_append]
    omega
  · have := congrArg List.length hs.2
    simpa [NumTok.len] using this

/-- `NUM_RE.finditer`: left-to-right non-overlapping scan; each match is
reported with the offset of its start, and the scan resumes right after
the match. -/
def numFindAllF : Nat → List Char → Nat → List (Nat × NumTok)
  | 0, _, _ => []
  | _, [], _ => []
  | fuel + 1, c :: r, pos =>
    match numMatchAt (c :: r) with
    | some (t, rest) => (pos, t) :: numFindAllF fuel rest (pos + t.len)
    | none => numFindAllF fuel r (pos + 1)

def numFindAll (l : List Char) (pos : Nat) : List (Nat × NumTok) :=
  numFindAllF l.length l pos

/-- The separator alternation `(?:-|–|—|~|à|a|to|&)` of `RANGE_RE`,
alternatives tried in source order (`RANGE_RE` is compiled without
`re.IGNORECASE`, so the letters are matched exactly). -/
def sepMatch (l : List Char) : Option (List Char) :=
  match l with
  | [] => none
  | c :: r =>
    if c = '-' then some r
    else if c = '–' then some r
    else if c = '—' then some r
    else if c = '~' then some r
    else if c = 'à' then some r
    else if c = 'a' then some r
    else if c = 't' then
      match r with
      | 'o' :: r2 => some r2
      | _ => none
    else if c = '&' then some r
    else none

/-- `RANGE_RE` anchored at the head of `l`:
`min` number, `\s*`, separator, `\s*`, `max` number.  As each greedy
piece is followed by a piece that cannot match the same characters,
the regex engine's backtracking never changes the greedy outcome, so
the match is computed directly. -/
def rangeMatchAt (l : List Char) : Option (NumTok × NumTok) :=
  match numMatchAt l with
  | none => none
  | some (mn, r1) =>
    match sepMatch (r1.dropWhile reWS) with
    | none => none
    | some r3 =>
      match numMatchAt (r3.dropWhile reWS) with
      | none => none
      | some (mx, _) => some (mn, mx)

/-- `RANGE_RE.search` on `l` (leftmost match wins). -/
def rangeSearch (l : List Char) : Option (NumTok × NumTok) :=
  match l with
  | [] => none
  | _ :: r =>
    match rangeMatchAt l with
    | some p => some p
    | none => rangeSearch r

theorem rangeMatchAt_wf (l : List Char) (mn mx : NumTok)
    (h : rangeMatchAt l = some (mn, mx)) : NumWf mn ∧ NumWf mx := by
  unfold rangeMatchAt at h
  cases h1 : numMatchAt l <;> rw [h1] at h
  · simp at h
  case some p =>
    obtain ⟨t1, r1⟩ := p
    dsimp only at h
    cases h2 : sepMatch (r1.dropWhile reWS) <;> rw [h2] at h
    · simp at h
    case some r3 =>
      dsimp only at h
      cases h3 : numMatchAt (r3.dropWhile reWS) <;> rw [h3] at h
      · simp at h
      case some q =>
        obtain ⟨t2, r4⟩ := q
        dsimp only at h
        simp only [Option.some_inj, Prod.mk.injEq] at h
        obtain ⟨h4, h5⟩ := h
        subst h4; subst h5
        exact ⟨(numMatchAt_spec _ _ _ h1).1, (numMatchAt_spec _ _ _ h3).1⟩

theorem rangeSearch_wf (l : List Char) (mn mx : NumTok)
    (h : rangeSearch l = some (mn, mx)) : NumWf mn ∧ NumWf mx := by
  induction l with
  | nil => exact absurd h (by simp [rangeSearch])
  | cons c r ih =>
    rw [rangeSearch] at h
    cases h1 : rangeMatchAt (c :: r) <;> rw [h1] at h
    · exact ih h
    case some p =>
      simp only [Option.some_inj] at h
      subst h
      exact rangeMatchAt_wf _ _ _ h1

-- ==================================================================
-- `LABEL_RE` (TSH_LABEL_PATTERN, compiled with re.IGNORECASE)
-- ==================================================================

/-- Consume one pattern character case-insensitively (`re.IGNORECASE`;
case folding modelled by `Char.toLower`, which covers the ASCII data;
the accented pattern letters are lowercase already). -/
def eat (c : Char) : List Char → Option (List Char)
  | d :: r => if d.toLower = c then some r else none
  | [] => none

/-- Consume a literal pattern string case-insensitively. -/
def eatStr : List Char → List Char → Option (List Char)
  | [], l => some l
  | c :: cs, l =>
    match eat c l with
    | some r => eatStr cs r
    | none => none

/-- Consume one character of a class case-insensitively. -/
def eatOneOf (cs : List Char) (l : List Char) : Option (List Char) :=
  match l with
  | d :: r => if cs.contains d.toLower then some r else none
  | [] => none

/-- Greedy `X?` for a single character class whose continuation cannot
start with a class character: consume if present, keep the input
otherwise. -/
def eatOptOneOf (cs : List Char) (l : List Char) : List Char :=
  match eatOneOf cs l with
  | some r => r
  | none => l

/-- Greedy `c?` for one exact character (no case folding), used for the
`" ?"` and `"/?"` of the unit patterns. -/
def eatOptExact (c : Char) (l : List Char) : List Char :=
  match l with
  | d :: r => if d = c then r else l
  | _ => l

/-- `\s*` (greedy; its continuation never starts with `\s`). -/
def skipWS (l : List Char) : List Char := l.dropWhile reWS

/-- `[.\s]*` of `BASE_TSH` (greedy; always followed by a letter). -/
def skipDotWS (l : List Char) : List Char :=
  l.dropWhile (fun c => c = '.' || reWS c)

/-- `\b` placed after a word character: the next character must be a
non-word character, or the input must end. -/
def wordBoundaryAfter (l : List Char) : Bool :=
  match l with
  | [] => true
  | c :: _ => !(isWordChar c)

/-- `BASE_TSH = T[.\s]*S[.\s]*H`. -/
def matchBase (l : List Char) : Option (List Char) := do
  let r ← eat 't' l
  let r ← eat 's' (skipDotWS r)
  eat 'h' (skipDotWS r)

/-- `\s*g[ée]n[ée]?ration?` (the part after `3(?:e|ème)`).  The two `?`
groups are greedy; their continuations (`r` resp. pattern end) cannot
match the optional characters, so no backtracking is needed. -/
def genTail (l : List Char) : Option (List Char) := do
  let r ← eat 'g' (skipWS l)
  let r ← eatOneOf ['e', 'é'] r
  let r ← eat 'n' r
  let r := eatOptOneOf ['e', 'é'] r
  let r ← eat 'r' r
  let r ← eat 'a' r
  let r ← eat 't' r
  let r ← eat 'i' r
  let r ← eat 'o' r
  some (match eat 'n' r with | some r2 => r2 | none => r)

/-- First alternative after `BASE_TSH`: `\s*3(?:e|ème)\s*g[ée]n[ée]?ration?`.
The alternation `(?:e|ème)` tries `e` first and backtracks into `ème`
when the continuation fails. -/
def altGen (l : List Char) : Option (List Char) := do
  let r ← eat '3' (skipWS l)
  match eat 'e' r with
  | some r1 =>
    match genTail r1 with
    | some out => some out
    | none => (eatStr ['è', 'm', 'e'] r).bind genTail
  | none => (eatStr ['è', 'm', 'e'] r).bind genTail

/-- Second alternative after `BASE_TSH`: `\s*ultra\s*sensible`. -/
def altUltra (l : List Char) : Option (List Char) := do
  let r ← eatStr ['u', 'l', 't', 'r', 'a'] (skipWS l)
  eatStr ['s', 'e', 'n', 's', 'i', 'b', 'l', 'e'] (skipWS r)

/-- Third alternative after `BASE_TSH`: `\s*us\b`. -/
def altUS (l : List Char) : Option (List Char) := do
  let r ← eatStr ['u', 's'] (skipWS l)
  if wordBoundaryAfter r then some r else none

/-- Fourth alternative after `BASE_TSH`: `\b`. -/
def altBare (l : List Char) : Option (List Char) :=
  if wordBoundaryAfter l then some l else none

/-- Fifth alternative: `thyr[eé]ostimuline`. -/
def altThyreo (l : List Char) : Option (List Char) := do
  let r ← eatStr ['t', 'h', 'y', 'r'] l
  let r ← eatOneOf ['e', 'é'] r
  eatStr ['o', 's', 't', 'i', 'm', 'u', 'l', 'i', 'n', 'e'] r

/-- Sixth alternative: `thyrotropine`. -/
def altThyro (l : List Char) : Option (List Char) :=
  eatStr ['t', 'h', 'y', 'r', 'o', 't', 'r', 'o', 'p', 'i', 'n', 'e'] l

/-- `LABEL_RE` anchored at the head of `l`: the alternatives are tried
in the order of `TSH_LABEL_PATTERN`; the result is the length of
`group(0)`. -/
def labelMatchAt (l : List Char) : Option Nat :=
  let viaBase : Option (List Char) :=
    match matchBase l with
    | some r => altGen r <|> altUltra r <|> altUS r <|> altBare r
    | none => none
  match viaBase <|> altThyreo l <|> altThyro l with
  | some rest => some (l.length - rest.length)
  | none => none

/-- `LABEL_RE.search`: leftmost match; returns `(start, length)` of
`group(0)` (no alternative matches the empty string, so positions where
nothing matches are simply skipped). -/
def labelSearch : List Char → Nat → Option (Nat × Nat)
  | [], _ => none
  | l@(_ :: r), pos =>
    match labelMatchAt l with
    | some n => some (pos, n)
    | none => labelSearch r (pos + 1)

-- ==================================================================
-- Unit regexes (both with re.IGNORECASE)
-- ==================================================================

/-- `m ?UI/?L` -/
def uMUIL (l : List Char) : Option (List Char) := do
  let r ← eat 'm' l
  let r ← eat 'u' (eatOptExact ' ' r)
  let r ← eat 'i' r
  eat 'l' (eatOptExact '/' r)

/-- `µ ?UI/?L` -/
def uMicroUIL (l : List Char) : Option (List Char) := do
  let r ← eat 'µ' l
  let r ← eat 'u' (eatOptExact ' ' r)
  let r ← eat 'i' r
  eat 'l' (eatOptExact '/' r)

/-- `u ?UI/?mL` -/
def uUImL (l : List Char) : Option (List Char) := do
  let r ← eat 'u' l
  let r ← eat 'u' (eatOptExact ' ' r)
  let r ← eat 'i' r
  let r ← eat 'm' (eatOptExact '/' r)
  eat 'l' r

/-- `mIU/?L` -/
def uMIUL (l : List Char) : Option (List Char) := do
  let r ← eat 'm' l
  let r ← eat 'i' r
  let r ← eat 'u' r
  eat 'l' (eatOptExact '/' r)

/-- `mU/?L` -/
def uMUL (l : List Char) : Option (List Char) := do
  let r ← eat 'm' l
  let r ← eat 'u' r
  eat 'l' (eatOptExact '/' r)

/-- `pUI/?mL` -/
def uPUImL (l : List Char) : Option (List Char) := do
  let r ← eat 'p' l
  let r ← eat 'u' r
  let r ← eat 'i' r
  let r ← eat 'm' (eatOptExact '/' r)
  eat 'l' r

/-- `UI/?L` -/
def uUIL (l : List Char) : Option (List Char) := do
  let r ← eat 'u' l
  let r ← eat 'i' r
  eat 'l' (eatOptExact '/' r)

/-- `mUI` -/
def uMUI (l : List Char) : Option (List Char) := do
  let r ← eat 'm' l
  let r ← eat 'u' r
  eat 'i' r

/-- `µUI` -/
def uMicroUI (l : List Char) : Option (List Char) := do
  let r ← eat 'µ' l
  let r ← eat 'u' r
  eat 'i' r

/-- `uUI` -/
def uUUI (l : List Char) : Option (List Char) := do
  let r ← eat 'u' l
  let r ← eat 'u' r
  eat 'i' r

/-- The unit alternation of `_extract_tsh_from_labelled_line`
(lines 156-160), alternatives in source order. -/
def unitAltsLabelled : List (List Char → Option (List Char)) :=
  [uMUIL, uMicroUIL, uUImL, uMIUL, uMUL, uPUImL, uUIL, uMUI, uMicroUI, uUUI]

/-- The unit alternation of `_extract_tsh_from_mui_line`
(lines 203-207): the same list without `pUI/?mL`. -/
def unitAltsMui : List (List Char → Option (List Char)) :=
  [uMUIL, uMicroUIL, uUImL, uMIUL, uMUL, uUIL, uMUI, uMicroUI, uUUI]

/-- Try an alternation in order at one position. -/
def tryAlts (alts : List (List Char → Option (List Char))) (l : List Char) :
    Option (List Char) :=
  match alts with
  | [] => none
  | a :: rest =>
    match a l with
    | some r => some r
    | none => tryAlts rest l

/-- `re.search` for a unit alternation: leftmost position wins, first
alternative wins there; returns `(start, length)` of `group(0)`. -/
def unitSearch (alts : List (List Char → Option (List Char))) :
    List Char → Nat → Option (Nat × Nat)
  | [], _ => none
  | l@(_ :: r), pos =>
    match tryAlts alts l with
    | some rest => some (pos, l.length - rest.length)
    | none => unitSearch alts r (pos + 1)

-- ==================================================================
-- Substring test and line splitting
-- ==================================================================

/-- Does `pat` occur at the head of `l`? -/
def matchHere : List Char → List Char → Bool
  | [], _ => true
  | _ :: _, [] => false
  | p :: ps, c :: cs => p = c && matchHere ps cs

/-- Python's `pat in l` substring test. -/
def hasSub : List Char → List Char → Bool
  | [], pat => pat.isEmpty
  | l@(_ :: r), pat => matchHere pat l || hasSub r pat

/-- Python's `text.split("\n")`. -/
def splitNL : List Char → List (List Char)
  | [] => [[]]
  | '\n' :: r => [] :: splitNL r
  | c :: r =>
    match splitNL r with
    | h :: t => (c :: h) :: t
    | [] => [[c]]

-- ==================================================================
-- Data structures (src/parsers/tsh.py lines 10-29)
-- ==================================================================

/-- The `TSHMatch` dataclass: one candidate occurrence. -/
structure TSHMatch where
  label : String
  value : ℚ
  unit : Option String
  refMin : Option ℚ
  refMax : Option ℚ
  span : Nat × Nat
  rawLine : String
  rawSnippet : String
deriving Repr, DecidableEq

/-- The `ParsedTSH` dataclass: the parser's result (dataclass defaults:
`value`/`unit`/`ref_min`/`ref_max`/`error` default to `None`,
`confidence` defaults to `"low"`). -/
structure ParsedTSH where
  ok : Bool
  value : Option ℚ := none
  unit : Option String := none
  refMin : Option ℚ := none
  refMax : Option ℚ := none
  confidence : String := "low"
  error : Option String := none
deriving Repr, DecidableEq

-- ==================================================================
-- `_extract_tsh_from_labelled_line` (lines 131-182)
-- ==================================================================

/-- The reference pair derived from `RANGE_RE.search`: both bounds from
one range match, `min` group first, `max` group second, each repaired by
`_adjust_ref_value`; no range match leaves both bounds `None`. -/
def refPairOf (sub : List Char) : Option ℚ × Option ℚ :=
  match rangeSearch sub with
  | none => (none, none)
  | some (mn, mx) => (adjustRefCore mn.text, adjustRefCore mx.text)

/-- `_extract_tsh_from_labelled_line`: find the label, take the first
number after it as the value, look for a unit in the following
25-character window, and for a reference range after the value. -/
def extractTshFromLabelledLine (line : String) : Option TSHMatch :=
  let cs := line.toList
  match labelSearch cs 0 with
  | none => none
  | some (start, len) =>
    let snippet := cs.drop (start + len)
    match numFindAll snippet 0 with
    | [] => none
    | (npos, ntok) :: _ =>
      match toFloat ntok.text with
      | none => none
      | some v =>
        let endPos := npos + ntok.len
        let window := (snippet.drop endPos).take 25
        let unit : Option String :=
          match unitSearch unitAltsLabelled window 0 with
          | some (upos, ulen) => some (((window.drop upos).take ulen).asString)
          | none => none
        let rp := refPairOf (snippet.drop endPos)
        some { label := ((cs.drop start).take len).asString, value := v, unit := unit,
               refMin := rp.1, refMax := rp.2, span := (start, start + len),
               rawLine := line, rawSnippet := snippet.asString }

-- ==================================================================
-- `_extract_tsh_from_mui_line` (lines 189-239)
-- ==================================================================

/-- `_extract_tsh_from_mui_line`: fallback for lines holding a unit but
no recognizable label; the value is the last number before the unit, the
range is looked for after the unit. -/
def extractTshFromMuiLine (line : String) : Option TSHMatch :=
  let cs := line.toList
  let low := cs.map Char.toLower
  if !(hasSub low ['m', 'u', 'i']) && !(hasSub low ['u', 'i', '/', 'l']) then none
  else
    match unitSearch unitAltsMui cs 0 with
    | none => none
    | some (upos, ulen) =>
      match (numFindAll (cs.take upos) 0).getLast? with
      | none => none
      | some (_, ntok) =>
        match toFloat ntok.text with
        | none => none
        | some v =>
          let rp := refPairOf (cs.drop (upos + ulen))
          some { label := "TSH (fallback mUI)", value := v,
                 unit := some (((cs.drop upos).take ulen).asString),
                 refMin := rp.1, refMax := rp.2, span := (0, cs.length),
                 rawLine := line, rawSnippet := line }

-- ==================================================================
-- `_find_tsh_candidates` (lines 246-264)
-- ==================================================================

/-- `_find_tsh_candidates`: normalize, split into lines, collect the
labelled candidates (skipping lines with neither a label match nor the
substring "thyr"); only when no labelled candidate exists, collect the
mUI-fallback candidates. -/
def findTshCandidates (rawText : String) : List TSHMatch :=
  let text := normalizeText rawText
  let lines := (splitNL text.toList).map List.asString
  let labelled := lines.filterMap (fun line =>
    if (labelSearch line.toList 0).isNone &&
       !(hasSub (line.toList.map Char.toLower) ['t', 'h', 'y', 'r']) then none
    else extractTshFromLabelledLine line)
  if labelled.isEmpty then lines.filterMap extractTshFromMuiLine
  else labelled

-- ==================================================================
-- `_score_candidate` and `_pick_best_candidate` (lines 273-301)
-- ==================================================================

/-- `_score_candidate`: interval presence first, then label strength. -/
def scoreCandidate (c : TSHMatch) : Nat × Nat :=
  let hasRange : Nat := if c.refMin.isSome && c.refMax.isSome then 0 else 1
  let low := c.label.toList.map Char.toLower
  let labelPenalty : Nat :=
    if hasSub low ['f', 'a', 'l', 'l', 'b', 'a', 'c', 'k'] then 2
    else if hasSub low ['t', 's', 'h'] then 0
    else if hasSub low ['t', 'h', 'y', 'r'] then 1
    else 3
  (hasRange, labelPenalty)

/-- The full sort key `(*_score_candidate(c), c.span[0])`. -/
def candKey (c : TSHMatch) : Nat × Nat × Nat :=
  ((scoreCandidate c).1, (scoreCandidate c).2, c.span.1)

/-- Strict lexicographic comparison of sort keys. -/
def keyLt (x y : Nat × Nat × Nat) : Bool :=
  x.1 < y.1 || (x.1 = y.1 && (x.2.1 < y.2.1 || (x.2.1 = y.2.1 && x.2.2 < y.2.2)))

/-- `_pick_best_candidate`: `sorted(candidates, key)[0]` — the earliest
element with the minimal key (Python's sort is stable), or `None` for an
empty list. -/
def pickBestCandidate (candidates : List TSHMatch) : Option TSHMatch :=
  match candidates with
  | [] => none
  | c :: rest =>
    some (rest.foldl (fun acc d => if keyLt (candKey d) (candKey acc) then d else acc) c)

-- ==================================================================
-- `premium_parse_tsh` (lines 308-342)
-- ==================================================================

/-- `premium_parse_tsh` (its `boxes` argument is unused by the source;
`raw_text or ""` is the identity on actual strings).  Failure returns
the dataclass defaults plus `error="TSH_NOT_FOUND"`. -/
def premiumParseTsh (rawText : String) : ParsedTSH :=
  let candidates := findTshCandidates rawText
  if candidates.isEmpty then
    { ok := false, error := some "TSH_NOT_FOUND" }
  else
    match pickBestCandidate candidates with
    | none => { ok := false, error := some "TSH_NOT_FOUND" }
    | some best =>
      let conf : String :=
        if best.refMin.isSome && best.refMax.isSome then "high"
        else if hasSub (best.label.toList.map Char.toLower)
          ['f', 'a', 'l', 'l', 'b', 'a', 'c', 'k'] then "low"
        else "medium"
      { ok := true, value := some best.value, unit := best.unit,
        refMin := best.refMin, refMax := best.refMax,
        confidence := conf, error := none }

-- ==================================================================
-- Escalation controller, modelled from the spec (§4.3)
-- ==================================================================

/-- The three OCR passes of spec §4.2 (`light` / `premium` / `optimum`
in src/ocr_engine.py). -/
inductive PassKind where
  | fast
  | standard
  | aggressive
deriving Repr, DecidableEq

/-- Modelled from the spec: the Candidate Extractor + Scorer run on one
pass's output text (spec §4.3 transition rule); a pass that failed
(`None` in §4.2) yields no candidate. -/
def bestCandidateOf (text : Option String) : Option TSHMatch :=
  text.bind (fun s => pickBestCandidate (findTshCandidates s))

/-- Does the best candidate carry a complete reference interval? -/
def hasFullInterval (b : TSHMatch) : Bool :=
  b.refMin.isSome && b.refMax.isSome

/-- Modelled from the spec: the escalation controller of spec §4.3 is
not implemented under src/ (src/app.py's `ocr_tsh` and its helpers are
stubs), so its accept/fall-through state machine is modelled from the
spec's words.  After the aggressive pass the best candidate over every
pass is accepted if one exists.  The second component instruments which
passes were invoked. -/
def escalateStage3 (acc : List TSHMatch) (a : Option String) :
    Option TSHMatch × List PassKind :=
  ((pickBestCandidate (acc ++ (bestCandidateOf a).toList)),
   [PassKind.fast, PassKind.standard, PassKind.aggressive])

def escalateStage2 (acc : List TSHMatch) (s a : Option String) :
    Option TSHMatch × List PassKind :=
  match bestCandidateOf s with
  | some b =>
    if hasFullInterval b then (some b, [PassKind.fast, PassKind.standard])
    else escalateStage3 (acc ++ [b]) a
  | none => escalateStage3 acc a

def escalate (f s a : Option String) : Option TSHMatch × List PassKind :=
  match bestCandidateOf f with
  | some b =>
    if hasFullInterval b then (some b, [PassKind.fast])
    else escalateStage2 [b] s a
  | none => escalateStage2 [] s a

-- ==================================================================
-- The endpoint `ocr_tsh` error selection (src/app.py lines 131-200)
-- ==================================================================

/-- `app.parse_tsh` is an explicit stub: it always returns `None`
("renvoie None pour simuler un 'TSH_NOT_FOUND'"). -/
def parseTshStub (_ : String) : Option Unit := none

/-- The error selection of `ocr_tsh` after OCR produced `rawText`:
empty text reports `OCR_EMPTY_TEXT`; a `None` parse reports
`TSH_NOT_FOUND`; otherwise the call succeeds.  (First component: `ok`,
second: `error`.) -/
def ocrTshOutcome (rawText : String) : Bool × Option String :=
  if rawText = "" then (false, some "OCR_EMPTY_TEXT")
  else
    match parseTshStub rawText with
    | none => (false, some "TSH_NOT_FOUND")
    | some _ => (true, none)

-- ==================================================================
-- Lemma kit: runs and the normalizer
-- ==================================================================

/-- No two adjacent characters both satisfy `p`. -/
def noTwoAdj (p : Char → Bool) : List Char → Bool
  | a :: b :: r => !(p a && p b) && noTwoAdj p (b :: r)
  | _ => true

theorem noTwoAdj_cons_intro (p : Char → Bool) (a : Char) (t : List Char)
    (h1 : ∀ b, t.head? = some b → (p a && p b) = false)
    (h2 : noTwoAdj p t = true) : noTwoAdj p (a :: t) = true := by
  cases t with
  | nil => simp [noTwoAdj]
  | cons b r =>
    simp only [noTwoAdj, Bool.and_eq_true, Bool.not_eq_true']
    exact ⟨h1 b rfl, h2⟩

theorem noTwoAdj_tail (p : Char → Bool) (a : Char) (t : List Char)
    (h : noTwoAdj p (a :: t) = true) : noTwoAdj p t = true := by
  cases t with
  | nil => simp [noTwoAdj]
  | cons b r =>
    simp only [noTwoAdj, Bool.and_eq_true] at h
    exact h.2

theorem noTwoAdj_head (p : Char → Bool) (a b : Char) (t : List Char)
    (h : noTwoAdj p (a :: t) = true) (hb : t.head? = some b) :
    (p a && p b) = false := by
  cases t with
  | nil => simp at hb
  | cons c r =>
    simp only [List.head?_cons, Option.some_inj] at hb
    subst hb
    simp only [noTwoAdj, Bool.and_eq_true, Bool.not_eq_true'] at h
    exact h.1

theorem mem_of_dropWhile {α : Type} (q : α → Bool) (l : List α) (c : α)
    (h : c ∈ l.dropWhile q) : c ∈ l := by
  induction l with
  | nil => simpa using h
  | cons a r ih =>
    by_cases ha : q a
    · rw [List.dropWhile_cons, if_pos ha] at h
      exact List.mem_cons_of_mem a (ih h)
    · rwa [List.dropWhile_cons, if_neg ha] at h

theorem noTwoAdj_dropWhile (p q : Char → Bool) (l : List Char)
    (h : noTwoAdj p l = true) : noTwoAdj p (l.dropWhile q) = true := by
  induction l with
  | nil => simpa [noTwoAdj] using h
  | cons c r ih =>
    by_cases hc : q c
    · rw [List.dropWhile_cons, if_pos hc]
      exact ih (noTwoAdj_tail p c r h)
    · rw [List.dropWhile_cons, if_neg hc]
      exact h

theorem head_dropWhile_not (q : Char → Bool) (l : List Char) (c : Char)
    (h : (l.dropWhile q).head? = some c) : q c = false := by
  induction l with
  | nil => simp [List.dropWhile] at h
  | cons a r ih =>
    by_cases ha : q a
    · rw [List.dropWhile_cons, if_pos ha] at h
      exact ih h
    · rw [List.dropWhile_cons, if_neg ha] at h
      simp only [List.head?_cons, Option.some_inj] at h
      subst h
      exact Bool.not_eq_true _ ▸ (by simpa using ha)

theorem collapseWSF_head (n : Nat) (l : List Char) (hn : l.length ≤ n) :
    (collapseWSF n l).head? = l.head?.map (fun c => if pyWS c then ' ' else c) := by
  cases l with
  | nil => cases n <;> simp [collapseWSF]
  | cons c r =>
    cases n with
    | zero => simp at hn
    | succ m =>
      by_cases hc : pyWS c <;> simp [collapseWSF, hc]

theorem collapseWSF_mem (n : Nat) (l : List Char) (c : Char)
    (h : c ∈ collapseWSF n l) : c ∈ l ∨ c = ' ' := by
  induction n generalizing l with
  | zero => simp [collapseWSF] at h
  | succ m ih =>
    cases l with
    | nil => simp [collapseWSF] at h
    | cons a r =>
      by_cases ha : pyWS a
      · rw [collapseWSF, if_pos ha] at h
        rcases List.mem_cons.mp h with rfl | h2
        · right; rfl
        · rcases ih (r.dropWhile pyWS) h2 with h3 | h3
          · left; exact List.mem_cons_of_mem a (mem_of_dropWhile pyWS r c h3)
          · right; exact h3
      · rw [collapseWSF, if_neg ha] at h
        rcases List.mem_cons.mp h with rfl | h2
        · left; exact List.mem_cons_self _ _
        · rcases ih r h2 with h3 | h3
          · left; exact List.mem_cons_of_mem a h3
          · right; exact h3

theorem collapseWSF_allSpace (n : Nat) (l : List Char) (c : Char)
    (h : c ∈ collapseWSF n l) (hc : pyWS c = true) : c = ' ' := by
  induction n generalizing l with
  | zero => simp [collapseWSF] at h
  | succ m ih =>
    cases l with
    | nil => simp [collapseWSF] at h
    | cons a r =>
      by_cases ha : pyWS a
      · rw [collapseWSF, if_pos ha] at h
        rcases List.mem_cons.mp h with rfl | h2
        · rfl
        · exact ih _ h2
      · rw [collapseWSF, if_neg ha] at h
        rcases List.mem_cons.mp h with rfl | h2
        · exact absurd hc (by simpa using ha)
        · exact ih _ h2

theorem collapseWSF_noTwoAdj (n : Nat) (l : List Char) (hn : l.length ≤ n) :
    noTwoAdj pyWS (collapseWSF n l) = true := by
  induction n generalizing l with
  | zero =>
    cases l with
    | nil => simp [collapseWSF, noTwoAdj]
    | cons a r => simp at hn
  | succ m ih =>
    cases l with
    | nil => simp [collapseWSF, noTwoAdj]
    | cons a r =>
      simp only [List.length_cons, Nat.succ_le_succ_iff] at hn
      by_cases ha : pyWS a
      · rw [collapseWSF, if_pos ha]
        have hlen : (r.dropWhile pyWS).length ≤ m :=
          le_trans (lengthDropWhileLe pyWS r) hn
        refine noTwoAdj_cons_intro pyWS ' ' _ ?_ (ih _ hlen)
        intro b hb
        rw [collapseWSF_head m _ hlen] at hb
        cases hd : (r.dropWhile pyWS).head? with
        | none => rw [hd] at hb; simp at hb
        | some d =>
          rw [hd] at hb
          have hdns : pyWS d = false := head_dropWhile_not pyWS r d hd
          have hb2 : (if pyWS d then ' ' else d) = b := by simpa using hb
          rw [← hb2]
          simp [hdns]
      · rw [collapseWSF, if_neg ha]
        refine noTwoAdj_cons_intro pyWS a _ ?_ (ih _ hn)
        intro b hb
        simp [Bool.and_eq_false_iff]
        intro hcon
        exact absurd hcon (by simpa using ha)

theorem collapseWSF_id (n : Nat) (l : List Char) (hn : l.length ≤ n)
    (hsp : ∀ c ∈ l, pyWS c = true → c = ' ')
    (hadj : noTwoAdj pyWS l = true) : collapseWSF n l = l := by
  induction n generalizing l with
  | zero =>
    cases l with
    | nil => simp [collapseWSF]
    | cons a r => simp at hn
  | succ m ih =>
    cases l with
    | nil => simp [collapseWSF]
    | cons a r =>
      simp only [List.length_cons, Nat.succ_le_succ_iff] at hn
      by_cases ha : pyWS a
      · rw [collapseWSF, if_pos ha]
        have ha2 : a = ' ' := hsp a (List.mem_cons_self _ _) ha
        have hdrop : r.dropWhile pyWS = r := by
          cases r with
          | nil => simp [List.dropWhile]
          | cons b t =>
            have hb : (pyWS a && pyWS b) = false :=
              noTwoAdj_head pyWS a b (b :: t) hadj rfl
            rw [ha] at hb
            simp only [Bool.true_and] at hb
            rw [List.dropWhile_cons, hb]
            simp
        rw [hdrop, ha2]
        rw [ih r hn (fun c hc => hsp c (List.mem_cons_of_mem a hc))
          (noTwoAdj_tail pyWS a r hadj)]
      · rw [collapseWSF, if_neg ha]
        rw [ih r hn (fun c hc => hsp c (List.mem_cons_of_mem a hc))
          (noTwoAdj_tail pyWS a r hadj)]

theorem collapseNLF_head (n : Nat) (l : List Char) (hn : l.length ≤ n) :
    (collapseNLF n l).head? = l.head? := by
  cases l with
  | nil => cases n <;> simp [collapseNLF]
  | cons c r =>
    cases n with
    | zero => simp at hn
    | succ m =>
      by_cases hc : c = '\n' <;> simp [collapseNLF, hc]

theorem collapseNLF_mem (n : Nat) (l : List Char) (c : Char)
    (h : c ∈ collapseNLF n l) : c ∈ l := by
  induction n generalizing l with
  | zero => simp [collapseNLF] at h
  | succ m ih =>
    cases l with
    | nil => simp [collapseNLF] at h
    | cons a r =>
      by_cases ha : a = '\n'
      · rw [collapseNLF, if_pos (by simp [ha])] at h
        rcases List.mem_cons.mp h with rfl | h2
        · rw [ha]; exact List.mem_cons_self _ _
        · exact List.mem_cons_of_mem a
            (mem_of_dropWhile (· = '\n') r c (ih _ h2))
      · rw [collapseNLF, if_neg (by simp [ha])] at h
        rcases List.mem_cons.mp h with rfl | h2
        · exact List.mem_cons_self _ _
        · exact List.mem_cons_of_mem a (ih _ h2)

theorem collapseNLF_noTwoAdjNL (n : Nat) (l : List Char) (hn : l.length ≤ n) :
    noTwoAdj (· = '\n') (collapseNLF n l) = true := by
  induction n generalizing l with
  | zero =>
    cases l with
    | nil => simp [collapseNLF, noTwoAdj]
    | cons a r => simp at hn
  | succ m ih =>
    cases l with
    | nil => simp [collapseNLF, noTwoAdj]
    | cons a r =>
      simp only [List.length_cons, Nat.succ_le_succ_iff] at hn
      by_cases ha : a = '\n'
      · rw [collapseNLF, if_pos (by simp [ha])]
        have hlen : (r.dropWhile (· = '\n')).length ≤ m :=
          le_trans (lengthDropWhileLe _ r) hn
        refine noTwoAdj_cons_intro _ '\n' _ ?_ (ih _ hlen)
        intro b hb
        rw [collapseNLF_head m _ hlen] at hb
        have hbn : (decide (b = '\n')) = false := head_dropWhile_not _ _ b hb
        simp [hbn]
      · rw [collapseNLF, if_neg (by simp [ha])]
        refine noTwoAdj_cons_intro _ a _ ?_ (ih _ hn)
        intro b hb
        simp [ha]

theorem collapseNLF_id (n : Nat) (l : List Char) (hn : l.length ≤ n)
    (hadj : noTwoAdj (· = '\n') l = true) : collapseNLF n l = l := by
  induction n generalizing l with
  | zero =>
    cases l with
    | nil => simp [collapseNLF]
    | cons a r => simp at hn
  | succ m ih =>
    cases l with
    | nil => simp [collapseNLF]
    | cons a r =>
      simp only [List.length_cons, Nat.succ_le_succ_iff] at hn
      by_cases ha : a = '\n'
      · rw [collapseNLF, if_pos (by simp [ha])]
        have hdrop : r.dropWhile (· = '\n') = r := by
          cases r with
          | nil => simp [List.dropWhile]
          | cons b t =>
            have hb := noTwoAdj_head (· = '\n') a b (b :: t) hadj rfl
            have hb2 : (decide (b = '\n')) = false := by simpa [ha] using hb
            simp [List.dropWhile_cons, hb2]
        rw [hdrop, ha]
        rw [ih r hn (noTwoAdj_tail _ a r hadj)]
      · rw [collapseNLF, if_neg (by simp [ha])]
        rw [ih r hn (noTwoAdj_tail _ a r hadj)]

theorem collapseNLF_noTwoAdjWS (n : Nat) (l : List Char) (hn : l.length ≤ n)
    (hadj : noTwoAdj pyWS l = true) :
    noTwoAdj pyWS (collapseNLF n l) = true := by
  induction n generalizing l with
  | zero =>
    cases l with
    | nil => simp [collapseNLF, noTwoAdj]
    | cons a r => simp at hn
  | succ m ih =>
    cases l with
    | nil => simp [collapseNLF, noTwoAdj]
    | cons a r =>
      simp only [List.length_cons, Nat.succ_le_succ_iff] at hn
      by_cases ha : a = '\n'
      · rw [collapseNLF, if_pos (by simp [ha])]
        have hlen : (r.dropWhile (· = '\n')).length ≤ m :=
          le_trans (lengthDropWhileLe _ r) hn
        refine noTwoAdj_cons_intro pyWS '\n' _ ?_
          (ih _ hlen (noTwoAdj_dropWhile pyWS _ r (noTwoAdj_tail pyWS a r hadj)))
        intro b hb
        simp [pyWS]
      · rw [collapseNLF, if_neg (by simp [ha])]
        refine noTwoAdj_cons_intro pyWS a _ ?_
          (ih _ hn (noTwoAdj_tail pyWS a r hadj))
        intro b hb
        rw [collapseNLF_head m r hn] at hb
        exact noTwoAdj_head pyWS a b r hadj hb

theorem replCR_ne_cr (c : Char) : replCR c ≠ '\r' := by
  by_cases h : c = '\r' <;> simp [replCR, h]

theorem map_replCR_id (l : List Char) (h : ∀ c ∈ l, c ≠ '\r') :
    l.map replCR = l := by
  induction l with
  | nil => simp
  | cons a r ih =>
    have ha : a ≠ '\r' := h a (List.mem_cons_self _ _)
    simp only [List.map_cons, replCR, if_neg ha]
    rw [ih (fun c hc => h c (List.mem_cons_of_mem a hc))]

theorem collapseWS_noTwoAdj (l : List Char) : noTwoAdj pyWS (collapseWS l) = true :=
  collapseWSF_noTwoAdj l.length l (le_refl _)

theorem collapseWS_allSpace (l : List Char) (c : Char) (h : c ∈ collapseWS l)
    (hc : pyWS c = true) : c = ' ' :=
  collapseWSF_allSpace l.length l c h hc

theorem collapseWS_mem (l : List Char) (c : Char) (h : c ∈ collapseWS l) :
    c ∈ l ∨ c = ' ' :=
  collapseWSF_mem l.length l c h

theorem collapseWS_id (l : List Char) (hsp : ∀ c ∈ l, pyWS c = true → c = ' ')
    (hadj : noTwoAdj pyWS l = true) : collapseWS l = l :=
  collapseWSF_id l.length l (le_refl _) hsp hadj

theorem collapseNL_noTwoAdjNL (l : List Char) :
    noTwoAdj (· = '\n') (collapseNL l) = true :=
  collapseNLF_noTwoAdjNL l.length l (le_refl _)

theorem collapseNL_mem (l : List Char) (c : Char) (h : c ∈ collapseNL l) :
    c ∈ l :=
  collapseNLF_mem l.length l c h

theorem collapseNL_id (l : List Char) (hadj : noTwoAdj (· = '\n') l = true) :
    collapseNL l = l :=
  collapseNLF_id l.length l (le_refl _) hadj

theorem collapseNL_noTwoAdjWS (l : List Char) (hadj : noTwoAdj pyWS l = true) :
    noTwoAdj pyWS (collapseNL l) = true :=
  collapseNLF_noTwoAdjWS l.length l (le_refl _) hadj

/-- The characters of a fully normalized text: no carriage return, every
blank is a plain space, no two adjacent blanks, no two adjacent
newlines. -/
theorem normalizeText_invariants (t : String) :
    (∀ c ∈ (normalizeText t).toList, c ≠ '\r' ∧ (pyWS c = true → c = ' ')) ∧
    noTwoAdj pyWS (normalizeText t).toList = true ∧
    noTwoAdj (· = '\n') (normalizeText t).toList = true := by
  by_cases h : t = ""
  · simp [normalizeText, h, noTwoAdj]
  · rw [normalizeText, if_neg h]
    have htl : ∀ l : List Char, (List.asString l).toList = l := fun _ => rfl
    rw [htl]
    refine ⟨?_, ?_, ?_⟩
    · intro c hc
      have hc1 : c ∈ collapseWS (t.toList.map replCR) := collapseNL_mem _ c hc
      constructor
      · intro hcon
        rcases collapseWS_mem _ c hc1 with h2 | h2
        · rcases List.mem_map.mp h2 with ⟨d, _, hd2⟩
          rw [hcon] at hd2
          exact replCR_ne_cr d hd2
        · rw [h2] at hcon; simp at hcon
      · exact collapseWS_allSpace _ c hc1
    · exact collapseNL_noTwoAdjWS _ (collapseWS_noTwoAdj _)
    · exact collapseNL_noTwoAdjNL _

/-- Normalizing leaves nothing for a second pass to do. -/
theorem normalizeText_idem (t : String) :
    normalizeText (normalizeText t) = normalizeText t := by
  by_cases h0 : normalizeText t = ""
  · rw [h0]
    rfl
  · have hinv := normalizeText_invariants t
    rw [normalizeText, if_neg h0]
    have h1 : (normalizeText t).toList.map replCR = (normalizeText t).toList :=
      map_replCR_id _ (fun c hc => (hinv.1 c hc).1)
    rw [h1]
    have h2 : collapseWS (normalizeText t).toList = (normalizeText t).toList :=
      collapseWS_id _ (fun c hc => (hinv.1 c hc).2) hinv.2.1
    rw [h2]
    have h3 : collapseNL (normalizeText t).toList = (normalizeText t).toList :=
      collapseNL_id _ hinv.2.2
    rw [h3]
    cases hnt : normalizeText t with
    | mk data => rfl

-- ==================================================================
-- Lemma kit: `_adjust_ref_value` never fails on a `NUM_RE` match
-- ==================================================================

theorem digit_props (c : Char) (h : c.isDigit = true) :
    c ≠ '-' ∧ c ≠ '+' ∧ c ≠ '.' ∧ c ≠ ',' ∧ c ≠ ' ' ∧ c ≠ ' ' := by
  refine ⟨?_, ?_, ?_, ?_, ?_, ?_⟩ <;>
    (intro hcon; rw [hcon] at h; revert h; decide)

theorem tw_dw_append (ds r : List Char)
    (hds : ∀ c ∈ ds, Char.isDigit c = true)
    (hr : ∀ d, r.head? = some d → d.isDigit = false) :
    (ds ++ r).takeWhile Char.isDigit = ds ∧
    (ds ++ r).dropWhile Char.isDigit = r := by
  induction ds with
  | nil =>
    simp only [List.nil_append]
    cases r with
    | nil => simp [List.takeWhile, List.dropWhile]
    | cons d t =>
      have hd := hr d rfl
      rw [List.takeWhile_cons, List.dropWhile_cons]
      simp [hd]
  | cons a ds' ih =>
    have ha : a.isDigit = true := hds a (List.mem_cons_self _ _)
    have ih2 := ih (fun c hc => hds c (List.mem_cons_of_mem a hc))
    simp only [List.cons_append, List.takeWhile_cons, List.dropWhile_cons, ha,
      if_pos rfl]
    simp only [ih2.1, ih2.2]
    simp

theorem filter_id_of_all {α : Type} (p : α → Bool) (l : List α)
    (h : ∀ c ∈ l, p c = true) : l.filter p = l := by
  induction l with
  | nil => simp
  | cons a r ih =>
    rw [List.filter_cons, if_pos (h a (List.mem_cons_self _ _))]
    rw [ih (fun c hc => h c (List.mem_cons_of_mem a hc))]

theorem map_id_of_all {α : Type} (f : α → α) (l : List α)
    (h : ∀ c ∈ l, f c = c) : l.map f = l := by
  induction l with
  | nil => simp
  | cons a r ih =>
    rw [List.map_cons, h a (List.mem_cons_self _ _),
      ih (fun c hc => h c (List.mem_cons_of_mem a hc))]

theorem parseDecimal_isSome (sgnL ds fp : List Char)
    (hsgn : sgnL = [] ∨ sgnL = ['+'] ∨ sgnL = ['-'])
    (hdsne : ds ≠ []) (hds : ∀ c ∈ ds, Char.isDigit c = true)
    (hfp : fp = [] ∨ ∃ fs, fp = '.' :: fs ∧ fs ≠ [] ∧ ∀ c ∈ fs, Char.isDigit c = true) :
    (parseDecimal (sgnL ++ ds ++ fp)).isSome = true := by
  have hsign2 : (decSign (sgnL ++ ds ++ fp)).2 = ds ++ fp := by
    rcases hsgn with rfl | rfl | rfl
    · simp only [List.nil_append]
      cases hd : ds with
      | nil => exact absurd hd hdsne
      | cons d t =>
        have hdig : d.isDigit = true := hds d (hd ▸ List.mem_cons_self _ _)
        have hp := digit_props d hdig
        simp only [List.cons_append, decSign, if_neg hp.1, if_neg hp.2.1]
    · simp [decSign]
    · simp [decSign]
  have hfphead : ∀ d, fp.head? = some d → d.isDigit = false := by
    rcases hfp with rfl | ⟨fs, rfl, _, _⟩
    · intro d hd; simp at hd
    · intro d hd
      simp only [List.head?_cons, Option.some_inj] at hd
      subst hd
      decide
  have htw := tw_dw_append ds fp hds hfphead
  rw [parseDecimal]
  simp only [hsign2, htw.1, htw.2]
  rw [if_neg (by simpa using hdsne)]
  rcases hfp with rfl | ⟨fs, rfl, hfsne, hfs⟩
  · simp
  · have htw2 := tw_dw_append fs [] hfs (by intro d hd; simp at hd)
    simp only [List.append_nil] at htw2
    simp [htw2.1, htw2.2, hfsne]

theorem toFloat_isSome (t : NumTok) (h : NumWf t) :
    (toFloat t.text).isSome = true := by
  obtain ⟨hsgn, hipne, hip, hfp⟩ := h
  have hne : t.text ≠ [] := by
    rw [NumTok.text]
    cases hi : t.ip with
    | nil => exact absurd hi hipne
    | cons a b =>
      rcases hsgn with hs | hs | hs <;> rw [hs] <;> simp
  rw [toFloat, if_neg (by simpa using hne)]
  have hchars : ∀ c ∈ t.text, (!(c = ' ' || c = ' ') : Bool) = true := by
    intro c hc
    rw [NumTok.text] at hc
    rcases List.mem_append.mp hc with hc2 | hc2
    · rcases List.mem_append.mp hc2 with hc3 | hc3
      · rcases hsgn with hs | hs | hs <;> rw [hs] at hc3 <;> simp at hc3 <;>
          (try rw [hc3]) <;> decide
      · have := digit_props c (hip c hc3)
        simp [this.2.2.2.2.1, this.2.2.2.2.2]
    · rcases hfp with hf | ⟨s, fs, hf, hs, _, hfs⟩
      · rw [hf] at hc2; simp at hc2
      · rw [hf] at hc2
        rcases List.mem_cons.mp hc2 with rfl | hc3
        · rcases hs with rfl | rfl <;> decide
        · have := digit_props c (hfs c hc3)
          simp [this.2.2.2.2.1, this.2.2.2.2.2]
  have hfilter : t.text.filter (fun c => !(c = ' ' || c = '\u00A0')) = t.text :=
    filter_id_of_all _ _ hchars
  have hmap : t.text.map (fun c => if c = ',' then '.' else c) =
      t.sgn ++ t.ip ++ (match t.fp with
        | [] => ([] : List Char)
        | _ :: fs => '.' :: fs) := by
    rw [NumTok.text, List.map_append, List.map_append]
    have hm1 : t.sgn.map (fun c => if c = ',' then '.' else c) = t.sgn := by
      refine map_id_of_all _ _ ?_
      intro c hc
      rcases hsgn with hs | hs | hs <;> rw [hs] at hc <;> simp at hc <;>
        (try rw [hc]) <;> decide
    have hm2 : t.ip.map (fun c => if c = ',' then '.' else c) = t.ip := by
      refine map_id_of_all _ _ ?_
      intro c hc
      have := digit_props c (hip c hc)
      simp [this.2.2.2.1]
    rw [hm1, hm2]
    rcases hfp with hf | ⟨s, fs, hf, hs, _, hfs⟩
    · rw [hf]; simp
    · rw [hf]
      simp only [List.map_cons]
      have hm3 : fs.map (fun c => if c = ',' then '.' else c) = fs := by
        refine map_id_of_all _ _ ?_
        intro c hc
        have := digit_props c (hfs c hc)
        simp [this.2.2.2.1]
      rcases hs with rfl | rfl <;> simp [hm3]
  dsimp only
  rw [hfilter, hmap]
  rcases hfp with hf | ⟨s, fs, hf, hs, hfsne, hfs⟩
  · rw [hf]
    exact parseDecimal_isSome t.sgn t.ip [] hsgn hipne hip (Or.inl rfl)
  · rw [hf]
    exact parseDecimal_isSome t.sgn t.ip ('.' :: fs) hsgn hipne hip
      (Or.inr ⟨fs, rfl, hfsne, hfs⟩)

theorem adjustRefCore_isSome (t : NumTok) (h : NumWf t) :
    (adjustRefCore t.text).isSome = true := by
  obtain ⟨hsgn, hipne, hip, hfp⟩ := h
  have hne : t.text ≠ [] := by
    rw [NumTok.text]
    cases hi : t.ip with
    | nil => exact absurd hi hipne
    | cons a b =>
      rcases hsgn with hs | hs | hs <;> rw [hs] <;> simp
  rw [adjustRefCore, if_neg (by simpa using hne)]
  by_cases hsep : containsChar t.text ',' || containsChar t.text '.'
  · rw [if_pos hsep]
    exact toFloat_isSome t ⟨hsgn, hipne, hip, hfp⟩
  · rw [if_neg hsep]
    have hfilter : t.text.filter Char.isDigit = t.ip := by
      rw [NumTok.text, List.filter_append, List.filter_append]
      have h1 : t.sgn.filter Char.isDigit = [] := by
        rcases hsgn with hs | hs | hs <;> rw [hs] <;> decide
      have h2 : t.ip.filter Char.isDigit = t.ip := filter_id_of_all _ _ hip
      have h3 : t.fp.filter Char.isDigit = [] := by
        rcases hfp with hf | ⟨s, fs, hf, hs, _, _⟩
        · rw [hf]; rfl
        · exfalso
          apply hsep
          have hsm : s ∈ t.text := by
            rw [NumTok.text, hf]
            simp
          rcases hs with rfl | rfl
          · refine Bool.or_eq_true .. |>.mpr (Or.inr ?_)
            rw [containsChar, List.any_eq_true]
            exact ⟨'.', hsm, by simp⟩
          · refine Bool.or_eq_true .. |>.mpr (Or.inl ?_)
            rw [containsChar, List.any_eq_true]
            exact ⟨',', hsm, by simp⟩
      rw [h1, h2, h3]
      simp
    rw [hfilter]
    rw [if_neg (by simpa using hipne)]
    by_cases h4 : 4 ≤ t.ip.length
    · simp [h4]
    · rw [if_neg h4]
      by_cases h3 : t.ip.length = 3
      · simp [h3]
      · rw [if_neg h3]
        simp

/-- `refPairOf` sets both bounds or neither: the two bounds come from
one `RANGE_RE` match and `_adjust_ref_value` succeeds on every `NUM_RE`
match. -/
theorem refPairOf_iff (sub : List Char) :
    ((refPairOf sub).1.isSome = true) ↔ ((refPairOf sub).2.isSome = true) := by
  rw [refPairOf]
  cases hr : rangeSearch sub with
  | none => simp
  | some p =>
    obtain ⟨mn, mx⟩ := p
    have hwf := rangeSearch_wf sub mn mx hr
    simp only
    rw [adjustRefCore_isSome mn hwf.1, adjustRefCore_isSome mx hwf.2]

-- ==================================================================
-- Lemma kit: the selector
-- ==================================================================

theorem keyLt_irrefl (x : Nat × Nat × Nat) : keyLt x x = false := by
  simp [keyLt]

theorem keyLt_trans (x y z : Nat × Nat × Nat)
    (h1 : keyLt x y = true) (h2 : keyLt y z = true) : keyLt x z = true := by
  simp only [keyLt, Bool.or_eq_true, Bool.and_eq_true, decide_eq_true_eq] at *
  omega

theorem keyLt_false_trans (x y z : Nat × Nat × Nat)
    (h1 : keyLt x y = false) (h2 : keyLt y z = false) : keyLt x z = false := by
  simp only [keyLt, Bool.or_eq_false_iff, Bool.and_eq_false_iff,
    decide_eq_false_iff_not, Bool.or_eq_false_iff] at *
  omega

theorem foldl_pick_spec (rest : List TSHMatch) (acc : TSHMatch) :
    (rest.foldl (fun a d => if keyLt (candKey d) (candKey a) then d else a) acc = acc ∨
     rest.foldl (fun a d => if keyLt (candKey d) (candKey a) then d else a) acc ∈ rest) ∧
    ∀ c, (c = acc ∨ c ∈ rest) →
      keyLt (candKey c)
        (candKey (rest.foldl (fun a d => if keyLt (candKey d) (candKey a) then d else a) acc))
        = false := by
  induction rest generalizing acc with
  | nil =>
    refine ⟨Or.inl rfl, ?_⟩
    rintro c (rfl | hc)
    · simp [keyLt_irrefl]
    · simp at hc
  | cons d t ih =>
    simp only [List.foldl_cons]
    by_cases hd : keyLt (candKey d) (candKey acc) = true
    · rw [if_pos hd]
      obtain ⟨ihm, ihmin⟩ := ih d
      constructor
      · rcases ihm with h | h
        · right; rw [h]; exact List.mem_cons_self _ _
        · right; exact List.mem_cons_of_mem d h
      · rintro c (rfl | hc)
        · by_contra hcon
          rw [Bool.not_eq_false] at hcon
          have hdr : keyLt (candKey d)
              (candKey (t.foldl (fun a d => if keyLt (candKey d) (candKey a) then d else a) d))
              = false := ihmin d (Or.inl rfl)
          have := keyLt_trans _ _ _ hd hcon
          rw [this] at hdr
          exact absurd hdr (by simp)
        · rcases List.mem_cons.mp hc with rfl | hc2
          · exact ihmin c (Or.inl rfl)
          · exact ihmin c (Or.inr hc2)
    · rw [if_neg hd]
      obtain ⟨ihm, ihmin⟩ := ih acc
      constructor
      · rcases ihm with h | h
        · left; exact h
        · right; exact List.mem_cons_of_mem d h
      · rintro c (rfl | hc)
        · exact ihmin c (Or.inl rfl)
        · rcases List.mem_cons.mp hc with rfl | hc2
          · exact keyLt_false_trans _ _ _ (Bool.not_eq_true _ ▸ (by simpa using hd))
              (ihmin acc (Or.inl rfl))
          · exact ihmin c (Or.inr hc2)

/-- `_pick_best_candidate`: `None` exactly on the empty list; otherwise
the result is a member of the list minimizing the sort key
(strictly-smaller keys replace it, so among equal keys the earliest
survives). -/
theorem pickBestCandidate_spec (cs : List TSHMatch) :
    (pickBestCandidate cs = none ↔ cs = []) ∧
    (∀ b, pickBestCandidate cs = some b →
      b ∈ cs ∧ ∀ c ∈ cs, keyLt (candKey c) (candKey b) = false) := by
  cases cs with
  | nil => simp [pickBestCandidate]
  | cons c rest =>
    constructor
    · simp [pickBestCandidate]
    · intro b hb
      simp only [pickBestCandidate, Option.some_inj] at hb
      obtain ⟨hm, hmin⟩ := foldl_pick_spec rest c
      subst hb
      constructor
      · rcases hm with h | h
        · rw [h]; exact List.mem_cons_self _ _
        · exact List.mem_cons_of_mem c h
      · intro d hd
        rcases List.mem_cons.mp hd with rfl | hd2
        · exact hmin d (Or.inl rfl)
        · exact hmin d (Or.inr hd2)

-- ==================================================================
-- Lemma kit: every candidate's reference bounds come in pairs
-- ==================================================================

theorem extractLabelled_refs (line : String) (m : TSHMatch)
    (h : extractTshFromLabelledLine line = some m) :
    m.refMin.isSome = m.refMax.isSome := by
  rw [extractTshFromLabelledLine] at h
  cases h1 : labelSearch line.toList 0 <;> rw [h1] at h
  · simp at h
  case some p =>
    obtain ⟨start, len⟩ := p
    dsimp only at h
    cases h2 : numFindAll (line.toList.drop (start + len)) 0 <;> rw [h2] at h
    · simp at h
    case cons q rest =>
      obtain ⟨npos, ntok⟩ := q
      dsimp only at h
      cases h3 : toFloat ntok.text <;> rw [h3] at h
      · simp at h
      case some v =>
        dsimp only at h
        simp only [Option.some_inj] at h
        subst h
        simp only
        rw [Bool.eq_iff_iff]
        exact refPairOf_iff _

theorem extractMui_refs (line : String) (m : TSHMatch)
    (h : extractTshFromMuiLine line = some m) :
    m.refMin.isSome = m.refMax.isSome := by
  rw [extractTshFromMuiLine] at h
  by_cases hg : (!(hasSub (line.toList.map Char.toLower) ['m', 'u', 'i']) &&
      !(hasSub (line.toList.map Char.toLower) ['u', 'i', '/', 'l'])) = true
  · rw [if_pos hg] at h; simp at h
  · rw [if_neg hg] at h
    cases h1 : unitSearch unitAltsMui line.toList 0 with
    | none => rw [h1] at h; simp at h
    | some p =>
      rw [h1] at h
      obtain ⟨upos, ulen⟩ := p
      dsimp only at h
      cases h2 : (numFindAll (line.toList.take upos) 0).getLast? with
      | none => rw [h2] at h; simp at h
      | some q =>
        rw [h2] at h
        obtain ⟨npos, ntok⟩ := q
        dsimp only at h
        cases h3 : toFloat ntok.text with
        | none => rw [h3] at h; simp at h
        | some v =>
          rw [h3] at h
          dsimp only at h
          simp only [Option.some_inj] at h
          subst h
          simp only
          rw [Bool.eq_iff_iff]
          exact refPairOf_iff _

theorem findTshCandidates_refs (t : String) (m : TSHMatch)
    (h : m ∈ findTshCandidates t) :
    m.refMin.isSome = m.refMax.isSome := by
  rw [findTshCandidates] at h
  set lines := (splitNL (normalizeText t).toList).map List.asString with hlines
  by_cases he : (lines.filterMap (fun line =>
    if (labelSearch line.toList 0).isNone &&
       !(hasSub (line.toList.map Char.toLower) ['t', 'h', 'y', 'r']) then none
    else extractTshFromLabelledLine line)).isEmpty = true
  · rw [if_pos he] at h
    rcases List.mem_filterMap.mp h with ⟨line, _, hf⟩
    exact extractMui_refs line m hf
  · rw [if_neg he] at h
    rcases List.mem_filterMap.mp h with ⟨line, _, hf⟩
    by_cases hc : ((labelSearch line.toList 0).isNone &&
        !(hasSub (line.toList.map Char.toLower) ['t', 'h', 'y', 'r'])) = true
    · rw [if_pos hc] at hf; simp at hf
    · rw [if_neg hc] at hf
      exact extractLabelled_refs line m hf

-- ==================================================================
-- Lemma kit: the two outcomes of `premium_parse_tsh`
-- ==================================================================

theorem premiumParseTsh_ofNone (t : String)
    (h : pickBestCandidate (findTshCandidates t) = none) :
    premiumParseTsh t =
      { ok := false, value := none, unit := none, refMin := none, refMax := none,
        confidence := "low", error := some "TSH_NOT_FOUND" } := by
  rw [premiumParseTsh]
  have he : (findTshCandidates t).isEmpty = true := by
    rw [(pickBestCandidate_spec _).1.mp h]
    rfl
  rw [if_pos he]

theorem premiumParseTsh_ofSome (t : String) (b : TSHMatch)
    (h : pickBestCandidate (findTshCandidates t) = some b) :
    premiumParseTsh t =
      { ok := true, value := some b.value, unit := b.unit,
        refMin := b.refMin, refMax := b.refMax,
        confidence :=
          if b.refMin.isSome && b.refMax.isSome then "high"
          else if hasSub (b.label.toList.map Char.toLower)
            ['f', 'a', 'l', 'l', 'b', 'a', 'c', 'k'] then "low"
          else "medium",
        error := none } := by
  rw [premiumParseTsh]
  have hne : ¬((findTshCandidates t).isEmpty = true) := by
    intro hcon
    have : findTshCandidates t = [] := by
      cases hc : findTshCandidates t with
      | nil => rfl
      | cons a r => rw [hc] at hcon; simp at hcon
    rw [(pickBestCandidate_spec _).1.mpr this] at h
    simp at h
  rw [if_neg hne, h]

-- ==================================================================
-- Claim theorems
-- ==================================================================

/-- C1 counterexample: on the text `"tsh -5"` the parser succeeds with
the negative value −5, which lies outside `0 ≤ value ≤ ceiling` for
every ceiling, so no plausibility rejection happens. -/
theorem C1_counterexample :
    (premiumParseTsh "tsh -5").ok = true ∧
    (premiumParseTsh "tsh -5").value = some (-5) ∧
    ¬((0 : ℚ) ≤ -5) := by
  refine ⟨by decide, by decide, by decide⟩

/-- C1 (amended): when `premium_parse_tsh` returns `ok = true` the value
is non-null; however no physiological plausibility bound is enforced
anywhere — the scorer never rejects a candidate by value, so
out-of-range (even negative) values are promoted to successful
results. -/
theorem C1_ok_value_nonnull (t : String) (h : (premiumParseTsh t).ok = true) :
    ((premiumParseTsh t).value).isSome = true := by
  cases hp : pickBestCandidate (findTshCandidates t) with
  | none =>
    rw [premiumParseTsh_ofNone t hp] at h
    simp at h
  | some b =>
    rw [premiumParseTsh_ofSome t b hp]
    rfl

/-- C1 witness: the theorem applied to the text `"tsh 1"`. -/
theorem C1_witness :
    (premiumParseTsh "tsh 1").ok = true ∧
    ((premiumParseTsh "tsh 1").value).isSome = true :=
  ⟨by decide, C1_ok_value_nonnull "tsh 1" (by decide)⟩

/-- C2 counterexample: with the two bounds OCR'd in descending text
order, the parser returns `ref_min = 4 > ref_max = 0.4`: the pair is
never sorted ascending. -/
theorem C2_counterexample :
    (premiumParseTsh "tsh 2,5 4,00 - 0,40").refMin = some 4 ∧
    (premiumParseTsh "tsh 2,5 4,00 - 0,40").refMax = some (mkRat 2 5) ∧
    ¬((4 : ℚ) < mkRat 2 5) := by
  refine ⟨by decide, by decide, by decide⟩

/-- C2 (amended): `ref_min` and `ref_max` are the two rescaled bounds in
the order they appear in the text; no ascending sort is applied, so
`ref_min < ref_max` can fail.  What does hold for every result is that
the two bounds are present together: `ref_min` is non-null exactly when
`ref_max` is. -/
theorem C2_refs_come_in_pairs (t : String) :
    ((premiumParseTsh t).refMin).isSome = ((premiumParseTsh t).refMax).isSome := by
  cases hp : pickBestCandidate (findTshCandidates t) with
  | none => rw [premiumParseTsh_ofNone t hp]
  | some b =>
    rw [premiumParseTsh_ofSome t b hp]
    exact findTshCandidates_refs t b ((pickBestCandidate_spec _).2 b hp).1

/-- C3 counterexample: the value 50 is far outside the extracted
interval (0.4, 4), yet the confidence is `"high"`: the code grades
`"high"` on interval presence alone, without the spec's
value/interval-consistency or label-strength requirements. -/
theorem C3_counterexample :
    (premiumParseTsh "tsh 50 0,4 - 4,0").confidence = "high" ∧
    (premiumParseTsh "tsh 50 0,4 - 4,0").value = some 50 ∧
    (premiumParseTsh "tsh 50 0,4 - 4,0").refMax = some 4 ∧
    ¬((50 : ℚ) ≤ 4) := by
  refine ⟨by decide, by decide, by decide, by decide⟩

/-- C3 (amended): the code's confidence mapping is: `"high"` exactly
when both reference bounds are present (regardless of consistency or of
the strategy that found the candidate); otherwise `"low"` when the
selected candidate came from the unit-anchored fallback; otherwise
`"medium"`. -/
theorem C3_confidence_mapping (t : String) (b : TSHMatch)
    (h : pickBestCandidate (findTshCandidates t) = some b) :
    (premiumParseTsh t).confidence =
      (if b.refMin.isSome && b.refMax.isSome then "high"
       else if hasSub (b.label.toList.map Char.toLower)
         ['f', 'a', 'l', 'l', 'b', 'a', 'c', 'k'] then "low"
       else "medium") := by
  rw [premiumParseTsh_ofSome t b h]

/-- The candidate selected on the Scenario-A text, for the C3 witness. -/
def c3Best : TSHMatch :=
  { label := "TSH", value := mkRat 16 5, unit := some "mUI/L",
    refMin := some (mkRat 2 5), refMax := some 4, span := (0, 3),
    rawLine := "TSH 3,20 mUI/L (0,40 - 4,00)",
    rawSnippet := " 3,20 mUI/L (0,40 - 4,00)" }

/-- C3 witness: the theorem applied to the Scenario-A text. -/
theorem C3_witness :
    (premiumParseTsh "TSH 3,20 mUI/L (0,40 - 4,00)").confidence =
      (if c3Best.refMin.isSome && c3Best.refMax.isSome then "high"
       else if hasSub (c3Best.label.toList.map Char.toLower)
         ['f', 'a', 'l', 'l', 'b', 'a', 'c', 'k'] then "low"
       else "medium") :=
  C3_confidence_mapping "TSH 3,20 mUI/L (0,40 - 4,00)" c3Best (by decide)

/-- C4 counterexample: a failing parse reports `"TSH_NOT_FOUND"`, which
is not one of the spec's error codes `EMPTY_TEXT` / `FIELD_NOT_FOUND` /
`OCR_FAILED`. -/
theorem C4_counterexample :
    (premiumParseTsh "").ok = false ∧
    (premiumParseTsh "").error = some "TSH_NOT_FOUND" ∧
    "TSH_NOT_FOUND" ≠ "EMPTY_TEXT" ∧
    "TSH_NOT_FOUND" ≠ "FIELD_NOT_FOUND" ∧
    "TSH_NOT_FOUND" ≠ "OCR_FAILED" := by
  refine ⟨by decide, by decide, by decide, by decide, by decide⟩

/-- C4 (amended): the parser's only failure code is `"TSH_NOT_FOUND"`
(also when text is present but nothing matches), and the endpoint's
failure codes are drawn from `{"OCR_EMPTY_TEXT", "TSH_NOT_FOUND"}` —
the spec's enumeration `{EMPTY_TEXT, FIELD_NOT_FOUND, OCR_FAILED}` is
never emitted. -/
theorem C4_error_codes (t : String) :
    ((premiumParseTsh t).ok = false →
      (premiumParseTsh t).error = some "TSH_NOT_FOUND") ∧
    ((ocrTshOutcome t).1 = false →
      (ocrTshOutcome t).2 = some "OCR_EMPTY_TEXT" ∨
      (ocrTshOutcome t).2 = some "TSH_NOT_FOUND") := by
  constructor
  · intro h
    cases hp : pickBestCandidate (findTshCandidates t) with
    | none => rw [premiumParseTsh_ofNone t hp]
    | some b =>
      rw [premiumParseTsh_ofSome t b hp] at h
      simp at h
  · intro _
    rw [ocrTshOutcome]
    by_cases ht : t = ""
    · rw [if_pos ht]
      exact Or.inl rfl
    · rw [if_neg ht]
      exact Or.inr rfl

/-- C4 witness: the theorem applied to the text `"abc"`. -/
theorem C4_witness :
    (premiumParseTsh "abc").error = some "TSH_NOT_FOUND" ∧
    ((ocrTshOutcome "abc").2 = some "OCR_EMPTY_TEXT" ∨
     (ocrTshOutcome "abc").2 = some "TSH_NOT_FOUND") :=
  ⟨(C4_error_codes "abc").1 (by decide), (C4_error_codes "abc").2 (by decide)⟩

/-- C5: in the escalation controller (modelled from spec §4.3, absent
from src/), when the fast pass's best candidate already carries both
reference bounds, the run accepts immediately: only the fast pass is
invoked, never the standard or aggressive pass. -/
theorem C5_escalation_monotonic (f s a : Option String) (b : TSHMatch)
    (h1 : bestCandidateOf f = some b) (h2 : hasFullInterval b = true) :
    (escalate f s a).2 = [PassKind.fast] ∧
    PassKind.standard ∉ (escalate f s a).2 ∧
    PassKind.aggressive ∉ (escalate f s a).2 := by
  have he : escalate f s a = (some b, [PassKind.fast]) := by
    rw [escalate, h1]
    dsimp only
    rw [if_pos h2]
  rw [he]
  refine ⟨rfl, ?_, ?_⟩ <;> (dsimp only; decide)

/-- The fast pass's best candidate on `"tsh 2,5 0,4 - 4,0"`, for the C5
witness. -/
def c5Best : TSHMatch :=
  { label := "tsh", value := mkRat 5 2, unit := none,
    refMin := some (mkRat 2 5), refMax := some 4, span := (0, 3),
    rawLine := "tsh 2,5 0,4 - 4,0", rawSnippet := " 2,5 0,4 - 4,0" }

/-- C5 witness: the theorem applied to a fast pass whose best candidate
has a complete interval. -/
theorem C5_witness :
    (escalate (some "tsh 2,5 0,4 - 4,0") (some "x") (some "y")).2 = [PassKind.fast] ∧
    PassKind.standard ∉ (escalate (some "tsh 2,5 0,4 - 4,0") (some "x") (some "y")).2 ∧
    PassKind.aggressive ∉ (escalate (some "tsh 2,5 0,4 - 4,0") (some "x") (some "y")).2 :=
  C5_escalation_monotonic (some "tsh 2,5 0,4 - 4,0") (some "x") (some "y") c5Best
    (by decide) (by decide)

/-- A single candidate with a negative (physiologically impossible)
value, for the C6 counterexample. -/
def negCand : TSHMatch :=
  { label := "tsh", value := -5, unit := none, refMin := none, refMax := none,
    span := (0, 3), rawLine := "tsh -5", rawSnippet := " -5" }

/-- C6 counterexample: the candidate set `[negCand]` is non-empty and
every candidate in it has a negative value — under any plausibility
criterion all candidates are rejected, so the claim predicts `none` —
yet the selector returns the candidate: no plausibility rejection is
implemented. -/
theorem C6_counterexample :
    pickBestCandidate [negCand] = some negCand ∧ negCand.value < 0 := by
  refine ⟨by decide, by decide⟩

/-- C6 (amended): the selector returns the single lowest-sorting member
of the candidate set — no candidate's full sort key is strictly below
the selected one's — with ties on the score tuple broken by the
earliest position in the text; and it returns `none` exactly when the
candidate set is empty — no candidate is ever rejected on plausibility
grounds. -/
theorem C6_selector (cs : List TSHMatch) (b : TSHMatch) :
    (pickBestCandidate cs = none ↔ cs = []) ∧
    (pickBestCandidate cs = some b →
      b ∈ cs ∧ (∀ c ∈ cs, keyLt (candKey c) (candKey b) = false) ∧
      (∀ c ∈ cs, scoreCandidate c = scoreCandidate b → b.span.1 ≤ c.span.1)) := by
  refine ⟨(pickBestCandidate_spec cs).1, ?_⟩
  intro h
  obtain ⟨hmem, hmin⟩ := (pickBestCandidate_spec cs).2 b h
  refine ⟨hmem, hmin, ?_⟩
  intro c hc hsc
  have hk := hmin c hc
  rw [candKey, candKey, hsc] at hk
  by_contra hcon
  have hlt : keyLt ((scoreCandidate b).1, (scoreCandidate b).2, c.span.1)
      ((scoreCandidate b).1, (scoreCandidate b).2, b.span.1) = true := by
    simp only [keyLt, Bool.or_eq_true, Bool.and_eq_true, decide_eq_true_eq]
    refine Or.inr ⟨trivial, Or.inr ⟨trivial, ?_⟩⟩
    omega
  rw [hlt] at hk
  exact absurd hk (by simp)

/-- Two candidates with equal score tuples at different positions, for
the C6 witness. -/
def selLate : TSHMatch :=
  { label := "tsh", value := 1, unit := none, refMin := none, refMax := none,
    span := (5, 8), rawLine := "", rawSnippet := "" }

def selEarly : TSHMatch :=
  { label := "tsh", value := 2, unit := none, refMin := none, refMax := none,
    span := (2, 5), rawLine := "", rawSnippet := "" }

/-- C6 witness: on two equal-score candidates no key in the set is
strictly below the selected one's and the selected one sits at the
earlier position. -/
theorem C6_witness :
    keyLt (candKey selLate) (candKey selEarly) = false ∧
    selEarly.span.1 ≤ selLate.span.1 :=
  ⟨((C6_selector [selLate, selEarly] selEarly).2 (by decide)).2.1 selLate (by decide),
   ((C6_selector [selLate, selEarly] selEarly).2 (by decide)).2.2 selLate
     (by decide) (by decide)⟩

/-- C7: `_adjust_ref_value` on a token without a decimal separator keeps
the digit run unchanged when it has 1 or 2 digits, divides by 100 at
exactly 3 digits, divides by 1000 at 4 or more; in particular the
Scenario-E pair `"0400-4000"` is normalized to `ref_min = 0.4`
(`mkRat 2 5`) and `ref_max = 4.0`. -/
theorem C7_rescaling :
    (∀ raw : String,
      containsChar raw.toList ',' = false →
      containsChar raw.toList '.' = false →
      (((raw.toList.filter Char.isDigit).length = 3 →
         adjustRefValue raw =
           some (mkRat (digitsToNat (raw.toList.filter Char.isDigit) : ℤ) 100)) ∧
       (4 ≤ (raw.toList.filter Char.isDigit).length →
         adjustRefValue raw =
           some (mkRat (digitsToNat (raw.toList.filter Char.isDigit) : ℤ) 1000)) ∧
       (1 ≤ (raw.toList.filter Char.isDigit).length →
         (raw.toList.filter Char.isDigit).length ≤ 2 →
         adjustRefValue raw =
           some (mkRat (digitsToNat (raw.toList.filter Char.isDigit) : ℤ) 1)))) ∧
    adjustRefValue "0400" = some (mkRat 2 5) ∧
    adjustRefValue "4000" = some 4 ∧
    (premiumParseTsh "tsh 2,5 0400-4000").refMin = some (mkRat 2 5) ∧
    (premiumParseTsh "tsh 2,5 0400-4000").refMax = some 4 := by
  refine ⟨?_, by decide, by decide, by decide, by decide⟩
  intro raw hcomma hdot
  have hbase : 1 ≤ (raw.toList.filter Char.isDigit).length →
      adjustRefValue raw =
        (if 4 ≤ (raw.toList.filter Char.isDigit).length then
          some (mkRat (digitsToNat (raw.toList.filter Char.isDigit) : ℤ) 1000)
        else if (raw.toList.filter Char.isDigit).length = 3 then
          some (mkRat (digitsToNat (raw.toList.filter Char.isDigit) : ℤ) 100)
        else some (mkRat (digitsToNat (raw.toList.filter Char.isDigit) : ℤ) 1)) := by
    intro hlen
    have hlne : ¬(raw.toList.isEmpty = true) := by
      intro hcon
      cases hl : raw.toList with
      | nil => rw [hl] at hlen; simp at hlen
      | cons a r => rw [hl] at hcon; simp at hcon
    have hdne : ¬((raw.toList.filter Char.isDigit).isEmpty = true) := by
      intro hcon
      cases hfd : raw.toList.filter Char.isDigit with
      | nil => rw [hfd] at hlen; simp at hlen
      | cons a r => rw [hfd] at hcon; simp at hcon
    rw [adjustRefValue, adjustRefCore, if_neg hlne,
      if_neg (by simp; exact ⟨hcomma, hdot⟩), if_neg hdne]
  refine ⟨?_, ?_, ?_⟩
  · intro h3
    rw [hbase (by omega), if_neg (by omega), if_pos h3]
  · intro h4
    rw [hbase (by omega), if_pos h4]
  · intro h1 h2
    rw [hbase h1, if_neg (by omega), if_neg (by omega)]

/-- C7 witness: the theorem applied to the raw token `"027"`. -/
theorem C7_witness :
    containsChar "027".toList ',' = false ∧
    containsChar "027".toList '.' = false ∧
    adjustRefValue "027" = some (mkRat (digitsToNat ("027".toList.filter Char.isDigit) : ℤ) 100) :=
  ⟨by decide, by decide,
    ((C7_rescaling.1 "027" (by decide) (by decide)).1 (by decide))⟩

/-- C8 counterexample: the normalizer neither lower-cases nor strips
accents: `"A"` and `"é"` pass through unchanged. -/
theorem C8_counterexample :
    normalizeText "A" = "A" ∧ "A" ≠ "a" ∧
    normalizeText "é" = "é" ∧ "é" ≠ "e" := by
  refine ⟨by decide, by decide, by decide, by decide⟩

/-- C8 (amended): the normalizer is total, returns `""` on empty input,
collapses every run of blanks (space/tab/form-feed/vertical-tab) to a
single space, turns `"\r"` into `"\n"` and collapses newline runs to a
single newline (line breaks are preserved); it does not lower-case and
does not strip accents. -/
theorem C8_normalizer (t : String) (c : Char) :
    normalizeText "" = "" ∧
    (c ∈ (normalizeText t).toList → c ≠ '\r' ∧ (pyWS c = true → c = ' ')) ∧
    noTwoAdj pyWS (normalizeText t).toList = true ∧
    noTwoAdj (· = '\n') (normalizeText t).toList = true := by
  have h := normalizeText_invariants t
  exact ⟨rfl, fun hc => h.1 c hc, h.2.1, h.2.2⟩

/-- C8 witness: the theorem applied to the text `"a \t b"` and its first
character. -/
theorem C8_witness :
    'a' ∈ (normalizeText "a \t b").toList ∧
    'a' ≠ '\r' ∧ (pyWS 'a' = true → 'a' = ' ') :=
  ⟨by decide, (C8_normalizer "a \t b" 'a').2.1 (by decide)⟩

/-- C9: the text normalizer is idempotent — normalizing twice equals
normalizing once, for every input string. -/
theorem C9_normalize_idempotent (t : String) :
    normalizeText (normalizeText t) = normalizeText t :=
  normalizeText_idem t

-- ==================================================================
-- The parser's one uncaught-exception path (for C10)
-- ==================================================================

/-- CPython converts the integer to a double before computing
`val_int / 1000.0`; the conversion raises `OverflowError` as soon as
the integer rounds to `2^1024` or beyond, which happens from
`2^1024 − 2^970` upwards (the largest double is `2^1024 − 2^971` and
the tie at the midpoint rounds up to the even mantissa). -/
def floatOverflowBound : Nat := 2 ^ 1024 - 2 ^ 970

/-- The only operation in src/parsers/tsh.py that can raise: in
`_adjust_ref_value`'s separator-free branch with 4 or more digits,
`val_int / 1000.0` overflows for digit runs at or above
`floatOverflowBound`.  The 3-digit `/ 100.0` and the 1-2-digit
`float(val_int)` branches cannot overflow, `int(digits)` is wrapped in
`try`, and `float(<digit string>)` inside `_to_float` returns `inf`
rather than raising, so every other branch returns normally. -/
def adjustRefOverflows (l : List Char) : Bool :=
  if l.isEmpty then false
  else if containsChar l ',' || containsChar l '.' then false
  else
    let ds := l.filter Char.isDigit
    if ds.isEmpty then false
    else if 4 ≤ ds.length then decide (floatOverflowBound ≤ digitsToNat ds)
    else false

/-- Does repairing the reference pair of one range match raise?
(`_adjust_ref_value` runs on the `min` group first, then on `max`; an
overflow in either aborts the whole call, so the disjunction is the
raise condition.) -/
def refPairRaises (sub : List Char) : Bool :=
  match rangeSearch sub with
  | none => false
  | some (mn, mx) => adjustRefOverflows mn.text || adjustRefOverflows mx.text

/-- Does `_extract_tsh_from_labelled_line` raise on this line?  Only the
reference-pair repair can: the label, number, unit and value steps never
raise. -/
def extractLabelledRaises (line : String) : Bool :=
  match labelSearch line.toList 0 with
  | none => false
  | some (start, len) =>
    let snippet := line.toList.drop (start + len)
    match numFindAll snippet 0 with
    | [] => false
    | (npos, ntok) :: _ =>
      match toFloat ntok.text with
      | none => false
      | some _ => refPairRaises (snippet.drop (npos + ntok.len))

/-- Does `_extract_tsh_from_mui_line` raise on this line? -/
def extractMuiRaises (line : String) : Bool :=
  let cs := line.toList
  let low := cs.map Char.toLower
  if !(hasSub low ['m', 'u', 'i']) && !(hasSub low ['u', 'i', '/', 'l']) then false
  else
    match unitSearch unitAltsMui cs 0 with
    | none => false
    | some (upos, ulen) =>
      match (numFindAll (cs.take upos) 0).getLast? with
      | none => false
      | some (_, ntok) =>
        match toFloat ntok.text with
        | none => false
        | some _ => refPairRaises (cs.drop (upos + ulen))

/-- Does `premium_parse_tsh` raise an uncaught `OverflowError`?  The
labelled loop visits every qualifying line before any candidate is
picked, so a raise in any of them propagates; the fallback loop runs
only when the labelled loop finished and produced no candidate. -/
def premiumParseTshRaises (rawText : String) : Bool :=
  let lines := (splitNL (normalizeText rawText).toList).map List.asString
  let labelledRaise := lines.any (fun line =>
    !((labelSearch line.toList 0).isNone &&
      !(hasSub (line.toList.map Char.toLower) ['t', 'h', 'y', 'r'])) &&
    extractLabelledRaises line)
  let labelled := lines.filterMap (fun line =>
    if (labelSearch line.toList 0).isNone &&
       !(hasSub (line.toList.map Char.toLower) ['t', 'h', 'y', 'r']) then none
    else extractTshFromLabelledLine line)
  labelledRaise || (labelled.isEmpty && lines.any extractMuiRaises)

/-- A labelled TSH line whose reference range's first bound is a
separator-free 309-digit run: its integer value `10^309 − 1` exceeds
`floatOverflowBound`. -/
def overflowInput : String :=
  "tsh 1 " ++ (List.replicate 309 '9').asString ++ "-2"

set_option maxRecDepth 100000 in
/-- C10 counterexample: on `overflowInput` the parser reaches
`_adjust_ref_value` on the 309-nines bound and `val_int / 1000.0`
raises an uncaught `OverflowError` — `premium_parse_tsh` does not
return a `ParsedTSH` for every input. -/
theorem C10_counterexample :
    premiumParseTshRaises overflowInput = true ∧
    floatOverflowBound ≤ digitsToNat (List.replicate 309 '9') := by
  refine ⟨by decide, by decide⟩

/-- C10 (amended): on every input on which no reference-bound float
conversion overflows, `premium_parse_tsh` returns a `ParsedTSH`, and
every failing result carries the dataclass defaults: null value, unit
and bounds, confidence `"low"` (never null), and error exactly
`"TSH_NOT_FOUND"`.  (On overflowing inputs the parser raises instead of
returning, see the counterexample.) -/
theorem C10_failure_shape (t : String) (hr : premiumParseTshRaises t = false)
    (h : (premiumParseTsh t).ok = false) :
    premiumParseTsh t =
      { ok := false, value := none, unit := none, refMin := none, refMax := none,
        confidence := "low", error := some "TSH_NOT_FOUND" } := by
  cases hp : pickBestCandidate (findTshCandidates t) with
  | none => exact premiumParseTsh_ofNone t hp
  | some b =>
    rw [premiumParseTsh_ofSome t b hp] at h
    simp at h

/-- C10 witness: the theorem applied to the empty string. -/
theorem C10_witness :
    premiumParseTsh "" =
      { ok := false, value := none, unit := none, refMin := none, refMax := none,
        confidence := "low", error := some "TSH_NOT_FOUND" } :=
  C10_failure_shape "" (by decide) (by decide)
